import Mathlib

/-!
Shallow embedding of the friend-request broker from `src/websocket-server.js`.

The broker keeps three pieces of process-wide state:
  * `connectedUsers`  : a JS `Map` from user id to socket (here: the set of
    currently registered user ids, since no claim inspects the socket handle);
  * `friendRequests`  : a JS `Map` from request id to request record,
    modelled as an association list with JS `Map` semantics (set replaces the
    entry in place, otherwise appends; values iterate in insertion order);
  * `requestCounter`  : the monotonically increasing id counter (starts at 1).

Each socket event handler becomes a pure function
`BrokerState → ... → BrokerState × Ack × List Note`, where `Ack` is the
acknowledgement payload passed to the socket.io callback and `Note` records a
server-initiated notification `(target user id, payload)` emitted during the
handler.  A JS-falsy string field (`undefined` or `""`) is modelled as an
`Option String` whose `getD ""` is empty.
-/

inductive Status where
  | pending
  | accepted
  | rejected
deriving DecidableEq, Repr

structure FriendRequest where
  id : String
  fromUserId : String
  toUserId : String
  status : Status
  timestamp : Nat
  message : Option String
deriving DecidableEq, Repr

/-- A server-initiated notification payload, one constructor per
`friend_request:*` event emitted by the server. -/
inductive NotePayload where
  | received : FriendRequest → Option String → NotePayload
  | accepted : FriendRequest → NotePayload
  | rejected : FriendRequest → Option String → NotePayload
  | cancelled : FriendRequest → NotePayload
deriving DecidableEq, Repr

/-- A notification together with the user id of the socket it is emitted to. -/
def Note : Type := String × NotePayload

instance : DecidableEq Note := instDecidableEqProd

/-- Acknowledgement payload handed to the socket.io callback:
`{success:true, request}`, `{success:true}`, `{success:true, requests}` or
`{success:false, error}`. -/
inductive Ack where
  | okRequest : FriendRequest → Ack
  | okEmpty : Ack
  | okRequests : List FriendRequest → Ack
  | err : String → Ack
deriving DecidableEq, Repr

/-- JS `Map.get` on the association list: value of the first matching key. -/
def mapGet (m : List (String × FriendRequest)) (k : String) : Option FriendRequest :=
  match m with
  | [] => none
  | p :: rest => if p.1 = k then some p.2 else mapGet rest k

/-- JS `Map.set`: replace the entry for `k` in place, or append a new one. -/
def mapSet (m : List (String × FriendRequest)) (k : String) (v : FriendRequest) :
    List (String × FriendRequest) :=
  match m with
  | [] => [(k, v)]
  | p :: rest => if p.1 = k then (k, v) :: rest else p :: mapSet rest k v

/-- JS `Map.delete`: drop the entry for `k`. -/
def mapDelete (m : List (String × FriendRequest)) (k : String) :
    List (String × FriendRequest) :=
  match m with
  | [] => []
  | p :: rest => if p.1 = k then rest else p :: mapDelete rest k

structure BrokerState where
  connectedUsers : List String
  friendRequests : List (String × FriendRequest)
  requestCounter : Nat
deriving DecidableEq, Repr

/-- The template literal `req_${requestCounter}` used for new request ids. -/
def reqId (n : Nat) : String := "req_" ++ Nat.repr n

namespace ErrMsg

def toUserIdRequired : String := "Target user ID is required"

def targetUnreachable : String := "Target user is not online"

def requestIdRequired : String := "Request ID is required"

def notFound : String := "Friend request not found"

def notAuthorizedAccept : String := "Not authorized to accept this request"

def notAuthorizedReject : String := "Not authorized to reject this request"

def notAuthorizedCancel : String := "Not authorized to cancel this request"

def invalidState : String := "Can only cancel pending requests"

end ErrMsg

namespace Broker

/-- Handler for `friend_request:send`. -/
def send (st : BrokerState) (caller : String) (toUserId : Option String)
    (message : Option String) (now : Nat) : BrokerState × Ack × List Note :=
  let target := toUserId.getD ""
  if target = "" then (st, Ack.err ErrMsg.toUserIdRequired, [])
  else if target ∉ st.connectedUsers then (st, Ack.err ErrMsg.targetUnreachable, [])
  else
    let requestId := reqId st.requestCounter
    let friendRequest : FriendRequest :=
      { id := requestId, fromUserId := caller, toUserId := target,
        status := Status.pending, timestamp := now, message := message }
    ({ st with friendRequests := mapSet st.friendRequests requestId friendRequest,
               requestCounter := st.requestCounter + 1 },
     Ack.okRequest friendRequest,
     [(target, NotePayload.received friendRequest message)])

/-- Handler for `friend_request:accept`. -/
def accept (st : BrokerState) (caller : String) (requestId : Option String) :
    BrokerState × Ack × List Note :=
  let rid := requestId.getD ""
  if rid = "" then (st, Ack.err ErrMsg.requestIdRequired, [])
  else match mapGet st.friendRequests rid with
    | none => (st, Ack.err ErrMsg.notFound, [])
    | some request =>
      if request.toUserId ≠ caller then (st, Ack.err ErrMsg.notAuthorizedAccept, [])
      else
        let updated := { request with status := Status.accepted }
        ({ st with friendRequests := mapSet st.friendRequests rid updated },
         Ack.okRequest updated,
         if request.fromUserId ∈ st.connectedUsers then
           [(request.fromUserId, NotePayload.accepted updated)]
         else [])

/-- Handler for `friend_request:reject`. -/
def reject (st : BrokerState) (caller : String) (requestId : Option String)
    (reason : Option String) : BrokerState × Ack × List Note :=
  let rid := requestId.getD ""
  if rid = "" then (st, Ack.err ErrMsg.requestIdRequired, [])
  else match mapGet st.friendRequests rid with
    | none => (st, Ack.err ErrMsg.notFound, [])
    | some request =>
      if request.toUserId ≠ caller then (st, Ack.err ErrMsg.notAuthorizedReject, [])
      else
        let updated := { request with status := Status.rejected }
        ({ st with friendRequests := mapSet st.friendRequests rid updated },
         Ack.okRequest updated,
         if request.fromUserId ∈ st.connectedUsers then
           [(request.fromUserId, NotePayload.rejected updated reason)]
         else [])

/-- Handler for `friend_request:cancel`. -/
def cancel (st : BrokerState) (caller : String) (requestId : Option String) :
    BrokerState × Ack × List Note :=
  let rid := requestId.getD ""
  if rid = "" then (st, Ack.err ErrMsg.requestIdRequired, [])
  else match mapGet st.friendRequests rid with
    | none => (st, Ack.err ErrMsg.notFound, [])
    | some request =>
      if request.fromUserId ≠ caller then (st, Ack.err ErrMsg.notAuthorizedCancel, [])
      else if request.status ≠ Status.pending then (st, Ack.err ErrMsg.invalidState, [])
      else
        ({ st with friendRequests := mapDelete st.friendRequests rid },
         Ack.okEmpty,
         if request.toUserId ∈ st.connectedUsers then
           [(request.toUserId, NotePayload.cancelled request)]
         else [])

/-- The filter over `Array.from(friendRequests.values())` keeping the requests
addressed to the caller whose status is still pending. -/
def pendingFor (st : BrokerState) (caller : String) : List FriendRequest :=
  (st.friendRequests.map Prod.snd).filter
    (fun r => decide (r.toUserId = caller ∧ r.status = Status.pending))

/-- Handler for `friend_request:pending`. -/
def listPending (st : BrokerState) (caller : String) : BrokerState × Ack × List Note :=
  (st, Ack.okRequests (pendingFor st caller), [])

end Broker

/-- Body of the `io.on connection` handler: `connectedUsers.set(socket.userId, socket)`.
Re-registering an already connected user replaces the socket handle only, so
the set of registered user ids gains `userId` if absent. -/
def registerUser (st : BrokerState) (userId : String) : BrokerState :=
  { st with connectedUsers :=
      if userId ∈ st.connectedUsers then st.connectedUsers
      else st.connectedUsers ++ [userId] }

/-- Handler for `disconnect`: `connectedUsers.delete(socket.userId)`. -/
def disconnectUser (st : BrokerState) (userId : String) : BrokerState :=
  { st with connectedUsers := st.connectedUsers.filter (fun u => decide (u ≠ userId)) }

/-- One inbound event of the serialized event loop. -/
inductive Event where
  | connect (userId token : String)
  | disconnect (userId : String)
  | send (caller : String) (toUserId : Option String) (message : Option String) (now : Nat)
  | accept (caller : String) (requestId : Option String)
  | reject (caller : String) (requestId : Option String) (reason : Option String)
  | cancel (caller : String) (requestId : Option String)
  | listPending (caller : String)
deriving DecidableEq, Repr

/-- Handle one event to completion, returning the new state, the
acknowledgement for the caller and the emitted notifications.  The auth middleware refuses a
connection whose `userId` or `token` is falsy, so such a `connect` registers
nothing. -/
def stepOut (st : BrokerState) (e : Event) : BrokerState × Ack × List Note :=
  match e with
  | Event.connect u t =>
      (if u = "" ∨ t = "" then st else registerUser st u, Ack.okEmpty, [])
  | Event.disconnect u => (disconnectUser st u, Ack.okEmpty, [])
  | Event.send c tgt m now => Broker.send st c tgt m now
  | Event.accept c ridOpt => Broker.accept st c ridOpt
  | Event.reject c ridOpt reason => Broker.reject st c ridOpt reason
  | Event.cancel c ridOpt => Broker.cancel st c ridOpt
  | Event.listPending c => Broker.listPending st c

def step (st : BrokerState) (e : Event) : BrokerState := (stepOut st e).1

def run (st : BrokerState) (es : List Event) : BrokerState := es.foldl step st

/-- Module initialisation: empty maps, `requestCounter = 1`. -/
def initState : BrokerState :=
  { connectedUsers := [], friendRequests := [], requestCounter := 1 }

/-- A state the broker process can actually be in. -/
inductive Reachable : BrokerState → Prop where
  | init : Reachable initState
  | step {st : BrokerState} (h : Reachable st) (e : Event) : Reachable (step st e)

/-- Numeric value of a decimal digit character. -/
def digitVal (c : Char) : Nat := c.toNat - 48

/-- The decimal digit string of `n`, most significant digit first. -/
def natDigits (n : Nat) : List Char :=
  if h : n < 10 then [Nat.digitChar n]
  else
    have : n / 10 < n := Nat.div_lt_self (by omega) (by omega)
    natDigits (n / 10) ++ [Nat.digitChar (n % 10)]

/-- Bookkeeping facts holding in every reachable broker state: the `id` field
of every stored record is its map key, every key was produced by the id
counter, and keys are distinct. -/
structure WF (st : BrokerState) : Prop where
  keyId : ∀ p ∈ st.friendRequests, (p : String × FriendRequest).2.id = p.1
  fresh : ∀ p ∈ st.friendRequests, ∃ n, n < st.requestCounter ∧ p.1 = reqId n
  nodup : (st.friendRequests.map Prod.fst).Nodup

theorem digitVal_digitChar (n : Nat) (h : n < 10) : digitVal (Nat.digitChar n) = n := by
  interval_cases n <;> rfl

theorem toDigitsCore_eq_natDigits (fuel : Nat) :
    ∀ (n : Nat) (acc : List Char), n < fuel →
      Nat.toDigitsCore 10 fuel n acc = natDigits n ++ acc := by
  induction fuel with
  | zero => intro n acc h; omega
  | succ f ih =>
    intro n acc h
    unfold Nat.toDigitsCore
    by_cases h10 : n / 10 = 0
    · have hn : n < 10 := by omega
      simp only [h10, if_pos]
      rw [natDigits]
      simp [hn, Nat.mod_eq_of_lt hn]
    · have hge : 10 ≤ n := by omega
      have hlt : n / 10 < f := by
        have := Nat.div_lt_self (show 0 < n by omega) (show 1 < 10 by omega)
        omega
      simp only [h10, if_neg, ite_false]
      rw [ih (n / 10) _ hlt]
      have hn : ¬ n < 10 := by omega
      conv_rhs => rw [natDigits]
      rw [dif_neg hn]
      simp

theorem toDigits_eq_natDigits (n : Nat) : Nat.toDigits 10 n = natDigits n := by
  unfold Nat.toDigits
  rw [toDigitsCore_eq_natDigits (n + 1) n [] (Nat.lt_succ_self n)]
  simp

theorem foldl_natDigits (n : Nat) :
    ∀ a : Nat, (natDigits n).foldl (fun s c => 10 * s + digitVal c) a
      = a * 10 ^ (natDigits n).length + n := by
  induction n using Nat.strong_induction_on with
  | _ n ih =>
    intro a
    by_cases h : n < 10
    · rw [natDigits, dif_pos h]
      simp [List.foldl, digitVal_digitChar n h]
      omega
    · rw [natDigits, dif_neg h]
      rw [List.foldl_append]
      have hdiv : n / 10 < n := Nat.div_lt_self (by omega) (by omega)
      rw [ih (n / 10) hdiv a]
      have hmod : n % 10 < 10 := Nat.mod_lt n (by omega)
      simp only [List.foldl, digitVal_digitChar (n % 10) hmod]
      rw [List.length_append, List.length_singleton, pow_succ]
      have hdm : 10 * (n / 10) + n % 10 = n := Nat.div_add_mod n 10
      calc 10 * (a * 10 ^ (natDigits (n / 10)).length + n / 10) + n % 10
          = a * (10 ^ (natDigits (n / 10)).length * 10) + (10 * (n / 10) + n % 10) := by ring
        _ = a * (10 ^ (natDigits (n / 10)).length * 10) + n := by rw [hdm]

theorem natDigits_inj {m n : Nat} (h : natDigits m = natDigits n) : m = n := by
  have hm := foldl_natDigits m 0
  have hn := foldl_natDigits n 0
  rw [h] at hm
  omega

theorem repr_inj {m n : Nat} (h : Nat.repr m = Nat.repr n) : m = n := by
  unfold Nat.repr at h
  have hdata := congrArg String.data h
  simp only [List.asString] at hdata
  rw [toDigits_eq_natDigits, toDigits_eq_natDigits] at hdata
  exact natDigits_inj hdata

theorem reqId_inj {m n : Nat} (h : reqId m = reqId n) : m = n := by
  unfold reqId at h
  have hdata := congrArg String.data h
  simp only [String.data_append] at hdata
  have h2 : (Nat.repr m).data = (Nat.repr n).data := List.append_cancel_left hdata
  exact repr_inj (String.ext h2)

theorem reqId_ne_empty (n : Nat) : reqId n ≠ "" := by
  intro h
  have hdata := congrArg String.data h
  unfold reqId at hdata
  simp only [String.data_append] at hdata
  exact absurd hdata (by simp [show ("req_" : String).data = ['r','e','q','_'] from rfl])

theorem mapGet_set_self (m : List (String × FriendRequest)) (k : String) (v : FriendRequest) :
    mapGet (mapSet m k v) k = some v := by
  induction m with
  | nil => simp [mapSet, mapGet]
  | cons p rest ih =>
    by_cases h : p.1 = k
    · simp [mapSet, mapGet, h]
    · simp [mapSet, mapGet, h, ih]

theorem mapGet_set_ne (m : List (String × FriendRequest)) (k : String) (v : FriendRequest)
    (i : String) (h : i ≠ k) : mapGet (mapSet m k v) i = mapGet m i := by
  induction m with
  | nil =>
    simp only [mapSet, mapGet, if_neg (fun hk : k = i => h hk.symm)]
  | cons p rest ih =>
    by_cases hp : p.1 = k
    · simp only [mapSet, if_pos hp, mapGet, if_neg (fun hk : k = i => h hk.symm),
        if_neg (fun hpi : p.1 = i => h (hpi.symm.trans hp))]
    · simp only [mapSet, if_neg hp, mapGet]
      by_cases hi : p.1 = i
      · simp only [if_pos hi]
      · simp only [if_neg hi, ih]

theorem mem_mapSet (m : List (String × FriendRequest)) (k : String) (v : FriendRequest)
    (p : String × FriendRequest) (hp : p ∈ mapSet m k v) : p ∈ m ∨ p = (k, v) := by
  induction m with
  | nil => simp [mapSet] at hp; simp [hp]
  | cons q rest ih =>
    by_cases h : q.1 = k
    · simp [mapSet, h] at hp
      rcases hp with hp | hp
      · right; simp [hp]
      · left; simp [hp]
    · simp [mapSet, h] at hp
      rcases hp with hp | hp
      · left; simp [hp]
      · rcases ih hp with h2 | h2
        · left; simp [h2]
        · right; exact h2

theorem mapGet_mem (m : List (String × FriendRequest)) (k : String) (v : FriendRequest)
    (h : mapGet m k = some v) : (k, v) ∈ m := by
  induction m with
  | nil => simp [mapGet] at h
  | cons p rest ih =>
    by_cases hp : p.1 = k
    · simp only [mapGet, if_pos hp, Option.some.injEq] at h
      have hkv : (k, v) = p := by rw [← hp, ← h]
      rw [hkv]
      exact List.mem_cons_self p rest
    · simp only [mapGet, if_neg hp] at h
      exact List.mem_cons_of_mem p (ih h)

theorem mapGet_eq_none (m : List (String × FriendRequest)) (k : String) :
    mapGet m k = none ↔ k ∉ m.map Prod.fst := by
  induction m with
  | nil => simp [mapGet]
  | cons p rest ih =>
    by_cases h : p.1 = k
    · simp [mapGet, h]
    · have h2 : k ≠ p.1 := fun hk => h hk.symm
      simp [mapGet, h, ih, h2]

theorem mem_mapDelete (m : List (String × FriendRequest)) (k : String)
    (p : String × FriendRequest) (hp : p ∈ mapDelete m k) : p ∈ m := by
  induction m with
  | nil => simp [mapDelete] at hp
  | cons q rest ih =>
    by_cases h : q.1 = k
    · simp [mapDelete, h] at hp
      simp [hp]
    · simp [mapDelete, h] at hp
      rcases hp with hp | hp
      · simp [hp]
      · simp [ih hp]

theorem mapGet_delete_ne (m : List (String × FriendRequest)) (k i : String)
    (h : i ≠ k) : mapGet (mapDelete m k) i = mapGet m i := by
  induction m with
  | nil => simp [mapDelete]
  | cons p rest ih =>
    by_cases hp : p.1 = k
    · simp only [mapDelete, if_pos hp, mapGet,
        if_neg (fun hpi : p.1 = i => h (hpi.symm.trans hp))]
    · simp only [mapDelete, if_neg hp, mapGet]
      by_cases hi : p.1 = i
      · simp only [if_pos hi]
      · simp only [if_neg hi, ih]

theorem mapDelete_keys_not_mem (m : List (String × FriendRequest)) (k : String)
    (hnd : (m.map Prod.fst).Nodup) : k ∉ (mapDelete m k).map Prod.fst := by
  induction m with
  | nil => simp [mapDelete]
  | cons p rest ih =>
    simp only [List.map_cons, List.nodup_cons] at hnd
    by_cases h : p.1 = k
    · simp only [mapDelete, if_pos h]
      rw [← h]
      exact hnd.1
    · simp only [mapDelete, if_neg h, List.map_cons, List.mem_cons, not_or]
      exact ⟨fun hk => h hk.symm, ih hnd.2⟩

theorem mapGet_delete_self (m : List (String × FriendRequest)) (k : String)
    (hnd : (m.map Prod.fst).Nodup) : mapGet (mapDelete m k) k = none :=
  (mapGet_eq_none _ _).mpr (mapDelete_keys_not_mem m k hnd)

theorem mem_mapDelete_key (m : List (String × FriendRequest)) (k : String)
    (hnd : (m.map Prod.fst).Nodup) (p : String × FriendRequest)
    (hp : p ∈ mapDelete m k) : p.1 ≠ k := by
  induction m with
  | nil => simp [mapDelete] at hp
  | cons q rest ih =>
    simp only [List.map_cons, List.nodup_cons] at hnd
    by_cases h : q.1 = k
    · simp only [mapDelete, if_pos h] at hp
      intro hpk
      subst h
      exact hnd.1 (List.mem_map.mpr ⟨p, hp, hpk⟩)
    · simp only [mapDelete, if_neg h] at hp
      rcases List.mem_cons.mp hp with hp | hp
      · rw [hp]; exact h
      · exact ih hnd.2 hp

theorem mapSet_keys_mem (m : List (String × FriendRequest)) (k : String) (v : FriendRequest)
    (hk : k ∈ m.map Prod.fst) : (mapSet m k v).map Prod.fst = m.map Prod.fst := by
  induction m with
  | nil => simp at hk
  | cons p rest ih =>
    by_cases h : p.1 = k
    · simp [mapSet, h]
    · simp only [List.map_cons, List.mem_cons] at hk
      rcases hk with hk | hk
      · exact absurd hk.symm h
      · simp [mapSet, h, ih hk]

theorem mapSet_keys_fresh (m : List (String × FriendRequest)) (k : String) (v : FriendRequest)
    (hk : k ∉ m.map Prod.fst) : (mapSet m k v).map Prod.fst = m.map Prod.fst ++ [k] := by
  induction m with
  | nil => simp [mapSet]
  | cons p rest ih =>
    simp only [List.map_cons, List.mem_cons, not_or] at hk
    have h : p.1 ≠ k := fun hp => hk.1 hp.symm
    simp [mapSet, h, ih hk.2]

theorem mapDelete_keys_sublist (m : List (String × FriendRequest)) (k : String) :
    ((mapDelete m k).map Prod.fst).Sublist (m.map Prod.fst) := by
  induction m with
  | nil => simp [mapDelete]
  | cons p rest ih =>
    by_cases h : p.1 = k
    · simp only [mapDelete, if_pos h, List.map_cons]
      exact (List.Sublist.refl _).cons _
    · simp only [mapDelete, if_neg h, List.map_cons]
      exact ih.cons₂ p.1

theorem WF.of_eq {st st' : BrokerState} (h : WF st)
    (hfr : st'.friendRequests = st.friendRequests)
    (hc : st'.requestCounter = st.requestCounter) : WF st' :=
  ⟨by rw [hfr]; exact h.keyId,
   by rw [hfr, hc]; exact h.fresh,
   by rw [hfr]; exact h.nodup⟩

theorem reqId_counter_not_key {st : BrokerState} (h : WF st) :
    reqId st.requestCounter ∉ st.friendRequests.map Prod.fst := by
  intro hmem
  rcases List.mem_map.mp hmem with ⟨p, hp, hk⟩
  rcases h.fresh p hp with ⟨n, hlt, hn⟩
  rw [hn] at hk
  exact absurd (reqId_inj hk) (by omega)

theorem WF_send {st : BrokerState} (h : WF st) (caller : String)
    (toUserId : Option String) (message : Option String) (now : Nat) :
    WF (Broker.send st caller toUserId message now).1 := by
  by_cases h1 : toUserId.getD "" = ""
  · exact h.of_eq (by simp [Broker.send, h1]) (by simp [Broker.send, h1])
  · by_cases h2 : toUserId.getD "" ∈ st.connectedUsers
    · have hfr : (Broker.send st caller toUserId message now).1.friendRequests =
        mapSet st.friendRequests (reqId st.requestCounter)
          { id := reqId st.requestCounter, fromUserId := caller,
            toUserId := toUserId.getD "", status := Status.pending,
            timestamp := now, message := message } := by
        simp [Broker.send, h1, h2]
      have hrc : (Broker.send st caller toUserId message now).1.requestCounter =
          st.requestCounter + 1 := by
        simp [Broker.send, h1, h2]
      refine ⟨?_, ?_, ?_⟩
      · rw [hfr]
        intro p hp
        rcases mem_mapSet _ _ _ _ hp with hm | he
        · exact h.keyId p hm
        · rw [he]
      · rw [hfr, hrc]
        intro p hp
        rcases mem_mapSet _ _ _ _ hp with hm | he
        · rcases h.fresh p hm with ⟨n, hlt, hn⟩
          exact ⟨n, by omega, hn⟩
        · exact ⟨st.requestCounter, by omega, by rw [he]⟩
      · rw [hfr]
        have hfk := reqId_counter_not_key h
        rw [mapSet_keys_fresh _ _ _ hfk]
        refine List.Nodup.append h.nodup (List.nodup_singleton _) ?_
        intro a ha hb
        simp only [List.mem_singleton] at hb
        rw [hb] at ha
        exact hfk ha
    · exact h.of_eq (by simp [Broker.send, h1, h2]) (by simp [Broker.send, h1, h2])

theorem WF_accept {st : BrokerState} (h : WF st) (caller : String)
    (requestId : Option String) : WF (Broker.accept st caller requestId).1 := by
  by_cases h1 : requestId.getD "" = ""
  · exact h.of_eq (by simp [Broker.accept, h1]) (by simp [Broker.accept, h1])
  · cases hm : mapGet st.friendRequests (requestId.getD "") with
    | none =>
      exact h.of_eq (by simp [Broker.accept, h1, hm]) (by simp [Broker.accept, h1, hm])
    | some request =>
      by_cases h3 : request.toUserId ≠ caller
      · exact h.of_eq (by simp [Broker.accept, h1, hm, h3])
          (by simp [Broker.accept, h1, hm, h3])
      · have hfr : (Broker.accept st caller requestId).1.friendRequests =
          mapSet st.friendRequests (requestId.getD "")
            { request with status := Status.accepted } := by
          simp [Broker.accept, h1, hm, h3]
        have hrc : (Broker.accept st caller requestId).1.requestCounter =
            st.requestCounter := by
          simp [Broker.accept, h1, hm, h3]
        have hmem : (requestId.getD "", request) ∈ st.friendRequests := mapGet_mem _ _ _ hm
        refine ⟨?_, ?_, ?_⟩
        · rw [hfr]
          intro p hp
          rcases mem_mapSet _ _ _ _ hp with hmm | he
          · exact h.keyId p hmm
          · rw [he]
            show request.id = requestId.getD ""
            exact h.keyId _ hmem
        · rw [hfr, hrc]
          intro p hp
          rcases mem_mapSet _ _ _ _ hp with hmm | he
          · exact h.fresh p hmm
          · rcases h.fresh _ hmem with ⟨n, hlt, hn⟩
            exact ⟨n, hlt, by rw [he]; exact hn⟩
        · rw [hfr]
          rw [mapSet_keys_mem _ _ _ (List.mem_map.mpr ⟨_, hmem, rfl⟩)]
          exact h.nodup

theorem WF_reject {st : BrokerState} (h : WF st) (caller : String)
    (requestId : Option String) (reason : Option String) :
    WF (Broker.reject st caller requestId reason).1 := by
  by_cases h1 : requestId.getD "" = ""
  · exact h.of_eq (by simp [Broker.reject, h1]) (by simp [Broker.reject, h1])
  · cases hm : mapGet st.friendRequests (requestId.getD "") with
    | none =>
      exact h.of_eq (by simp [Broker.reject, h1, hm]) (by simp [Broker.reject, h1, hm])
    | some request =>
      by_cases h3 : request.toUserId ≠ caller
      · exact h.of_eq (by simp [Broker.reject, h1, hm, h3])
          (by simp [Broker.reject, h1, hm, h3])
      · have hfr : (Broker.reject st caller requestId reason).1.friendRequests =
          mapSet st.friendRequests (requestId.getD "")
            { request with status := Status.rejected } := by
          simp [Broker.reject, h1, hm, h3]
        have hrc : (Broker.reject st caller requestId reason).1.requestCounter =
            st.requestCounter := by
          simp [Broker.reject, h1, hm, h3]
        have hmem : (requestId.getD "", request) ∈ st.friendRequests := mapGet_mem _ _ _ hm
        refine ⟨?_, ?_, ?_⟩
        · rw [hfr]
          intro p hp
          rcases mem_mapSet _ _ _ _ hp with hmm | he
          · exact h.keyId p hmm
          · rw [he]
            show request.id = requestId.getD ""
            exact h.keyId _ hmem
        · rw [hfr, hrc]
          intro p hp
          rcases mem_mapSet _ _ _ _ hp with hmm | he
          · exact h.fresh p hmm
          · rcases h.fresh _ hmem with ⟨n, hlt, hn⟩
            exact ⟨n, hlt, by rw [he]; exact hn⟩
        · rw [hfr]
          rw [mapSet_keys_mem _ _ _ (List.mem_map.mpr ⟨_, hmem, rfl⟩)]
          exact h.nodup

theorem WF_cancel {st : BrokerState} (h : WF st) (caller : String)
    (requestId : Option String) : WF (Broker.cancel st caller requestId).1 := by
  by_cases h1 : requestId.getD "" = ""
  · exact h.of_eq (by simp [Broker.cancel, h1]) (by simp [Broker.cancel, h1])
  · cases hm : mapGet st.friendRequests (requestId.getD "") with
    | none =>
      exact h.of_eq (by simp [Broker.cancel, h1, hm]) (by simp [Broker.cancel, h1, hm])
    | some request =>
      by_cases h3 : request.fromUserId ≠ caller
      · exact h.of_eq (by simp [Broker.cancel, h1, hm, h3])
          (by simp [Broker.cancel, h1, hm, h3])
      · by_cases h4 : request.status ≠ Status.pending
        · exact h.of_eq (by simp [Broker.cancel, h1, hm, h3, h4])
            (by simp [Broker.cancel, h1, hm, h3, h4])
        · have hfr : (Broker.cancel st caller requestId).1.friendRequests =
            mapDelete st.friendRequests (requestId.getD "") := by
            simp [Broker.cancel, h1, hm, h3, h4]
          have hrc : (Broker.cancel st caller requestId).1.requestCounter =
              st.requestCounter := by
            simp [Broker.cancel, h1, hm, h3, h4]
          refine ⟨?_, ?_, ?_⟩
          · rw [hfr]
            intro p hp
            exact h.keyId p (mem_mapDelete _ _ _ hp)
          · rw [hfr, hrc]
            intro p hp
            exact h.fresh p (mem_mapDelete _ _ _ hp)
          · rw [hfr]
            exact h.nodup.sublist (mapDelete_keys_sublist _ _)

theorem WF_step (st : BrokerState) (e : Event) (h : WF st) : WF (step st e) := by
  cases e with
  | connect u t =>
    refine h.of_eq ?_ ?_ <;> (simp only [step, stepOut]; split <;> rfl)
  | disconnect u => exact h.of_eq rfl rfl
  | send c tgtOpt msg now => exact WF_send h c tgtOpt msg now
  | accept c ridOpt => exact WF_accept h c ridOpt
  | reject c ridOpt reason => exact WF_reject h c ridOpt reason
  | cancel c ridOpt => exact WF_cancel h c ridOpt
  | listPending c => exact h.of_eq rfl rfl

theorem WF_initState : WF initState :=
  ⟨by simp [initState], by simp [initState], by simp [initState]⟩

theorem reachable_wf {st : BrokerState} (h : Reachable st) : WF st := by
  induction h with
  | init => exact WF_initState
  | step h e ih => exact WF_step _ e ih

theorem accept_counter (st : BrokerState) (caller : String) (ridOpt : Option String) :
    (Broker.accept st caller ridOpt).1.requestCounter = st.requestCounter := by
  simp only [Broker.accept]
  repeat' split
  all_goals rfl

theorem reject_counter (st : BrokerState) (caller : String) (ridOpt : Option String)
    (reason : Option String) :
    (Broker.reject st caller ridOpt reason).1.requestCounter = st.requestCounter := by
  simp only [Broker.reject]
  repeat' split
  all_goals rfl

theorem cancel_counter (st : BrokerState) (caller : String) (ridOpt : Option String) :
    (Broker.cancel st caller ridOpt).1.requestCounter = st.requestCounter := by
  simp only [Broker.cancel]
  repeat' split
  all_goals rfl

theorem counter_le_step (st : BrokerState) (e : Event) :
    st.requestCounter ≤ (step st e).requestCounter := by
  cases e with
  | connect u t =>
    simp only [step, stepOut]
    split <;> exact Nat.le_refl _
  | disconnect u => exact Nat.le_refl _
  | send c tgtOpt msg now =>
    simp only [step, stepOut, Broker.send]
    repeat' split
    all_goals (dsimp only; omega)
  | accept c ridOpt => exact Nat.le_of_eq (accept_counter st c ridOpt).symm
  | reject c ridOpt reason => exact Nat.le_of_eq (reject_counter st c ridOpt reason).symm
  | cancel c ridOpt => exact Nat.le_of_eq (cancel_counter st c ridOpt).symm
  | listPending c => exact Nat.le_refl _

theorem counter_le_run (st : BrokerState) (es : List Event) :
    st.requestCounter ≤ (run st es).requestCounter := by
  induction es generalizing st with
  | nil => exact Nat.le_refl _
  | cons e rest ih => exact (counter_le_step st e).trans (ih (step st e))

theorem run_append (st : BrokerState) (l1 l2 : List Event) :
    run st (l1 ++ l2) = run (run st l1) l2 := by
  simp [run, List.foldl_append]

theorem send_ok (st : BrokerState) (caller : String) (toUserId : Option String)
    (message : Option String) (now : Nat) (r : FriendRequest)
    (h : (Broker.send st caller toUserId message now).2.1 = Ack.okRequest r) :
    r.id = reqId st.requestCounter ∧
    (Broker.send st caller toUserId message now).1.requestCounter = st.requestCounter + 1 := by
  by_cases h1 : toUserId.getD "" = ""
  · simp [Broker.send, h1] at h
  · by_cases h2 : toUserId.getD "" ∈ st.connectedUsers
    · have hr : r =
          { id := reqId st.requestCounter, fromUserId := caller,
            toUserId := toUserId.getD "", status := Status.pending,
            timestamp := now, message := message } := by
        have := h
        simp [Broker.send, h1, h2] at this
        exact this.symm
      refine ⟨by rw [hr], ?_⟩
      simp [Broker.send, h1, h2]
    · simp [Broker.send, h1, h2] at h

theorem getD_empty_ne {o : Option String} (h : o.getD "" ≠ "") : o = some (o.getD "") := by
  cases o with
  | none => simp at h
  | some x => rfl

/-- Shared witness trace: users A and B connect, then A sends B a request. -/
def trAB : List Event :=
  [Event.connect "A" "t", Event.connect "B" "t", Event.send "A" (some "B") (some "hi") 5]

/-- State reached after `trAB`: one pending request `req_1` from A to B. -/
def stAB : BrokerState := run initState trAB

/-- The request record stored as `req_1` in `stAB`. -/
def reqAB : FriendRequest :=
  { id := "req_1", fromUserId := "A", toUserId := "B", status := Status.pending,
    timestamp := 5, message := some "hi" }

theorem stAB_reachable : Reachable stAB :=
  Reachable.step (Reachable.step (Reachable.step Reachable.init (Event.connect "A" "t"))
    (Event.connect "B" "t")) (Event.send "A" (some "B") (some "hi") 5)

/-- C10: accept, reject and cancel called with a missing `requestId` field all
fail with the missing-field error "Request ID is required", leaving the state
untouched and emitting no notification, even though the spec lists only
NotFound, NotAuthorized and InvalidState failures for these operations. -/
theorem C10_missing_requestId (st : BrokerState) (caller : String) (reason : Option String) :
    Broker.accept st caller none = (st, Ack.err ErrMsg.requestIdRequired, []) ∧
    Broker.reject st caller none reason = (st, Ack.err ErrMsg.requestIdRequired, []) ∧
    Broker.cancel st caller none = (st, Ack.err ErrMsg.requestIdRequired, []) := by
  refine ⟨?_, ?_, ?_⟩ <;> rfl

/-- C3: a send whose `toUserId` is missing (JS-falsy) fails with the
InvalidArgument message, and a send to a user absent from the Connection
Registry fails with the TargetUnreachable message; in both cases the state is
returned unchanged (no record created) and no notification is emitted. -/
theorem C3_send_failure (st : BrokerState) (caller : String) (toUserId : Option String)
    (message : Option String) (now : Nat) :
    (toUserId.getD "" = "" →
      Broker.send st caller toUserId message now = (st, Ack.err ErrMsg.toUserIdRequired, [])) ∧
    (∀ u : String, toUserId = some u → u ≠ "" → u ∉ st.connectedUsers →
      Broker.send st caller toUserId message now = (st, Ack.err ErrMsg.targetUnreachable, [])) := by
  constructor
  · intro h1
    simp [Broker.send, h1]
  · intro u hu hne hnc
    subst hu
    simp [Broker.send, hne, hnc]

theorem C3_send_failure_witness :
    Broker.send initState "A" none none 0 = (initState, Ack.err ErrMsg.toUserIdRequired, []) ∧
    Broker.send initState "A" (some "B") none 0 =
      (initState, Ack.err ErrMsg.targetUnreachable, []) :=
  ⟨(C3_send_failure initState "A" none none 0).1 rfl,
   (C3_send_failure initState "A" (some "B") none 0).2 "B" rfl (by decide) (by decide)⟩

/-- C4: the pending list computed for user `caller` contains exactly the stored
requests addressed to `caller` that are still pending, whatever else is in the
store; the handler returns it in the acknowledgement and does not change state. -/
theorem C4_listPending (st : BrokerState) (caller : String) (r : FriendRequest) :
    (r ∈ Broker.pendingFor st caller ↔
      r ∈ st.friendRequests.map Prod.snd ∧ r.toUserId = caller ∧ r.status = Status.pending) ∧
    (Broker.listPending st caller).1 = st ∧
    (Broker.listPending st caller).2.1 = Ack.okRequests (Broker.pendingFor st caller) := by
  refine ⟨?_, rfl, rfl⟩
  simp [Broker.pendingFor, List.mem_filter, and_assoc]

/-- C5: accept and reject called by any user other than the recipient
(`toUserId`) of the request fail with the NotAuthorized message and leave the
state (in particular the status of the request) unchanged. -/
theorem C5_unauthorized (st : BrokerState) (hreach : Reachable st) (rid : String)
    (r : FriendRequest) (caller : String)
    (hget : mapGet st.friendRequests rid = some r) (hne : caller ≠ r.toUserId) :
    Broker.accept st caller (some rid) = (st, Ack.err ErrMsg.notAuthorizedAccept, []) ∧
    ∀ reason : Option String,
      Broker.reject st caller (some rid) reason = (st, Ack.err ErrMsg.notAuthorizedReject, []) := by
  have hwf := reachable_wf hreach
  have hmem := mapGet_mem _ _ _ hget
  rcases hwf.fresh _ hmem with ⟨n, hlt, hn⟩
  have hrne : rid ≠ "" := by
    rw [show rid = reqId n from hn]
    exact reqId_ne_empty n
  have hne2 : r.toUserId ≠ caller := fun hh => hne hh.symm
  constructor
  · simp [Broker.accept, hrne, hget, hne2]
  · intro reason
    simp [Broker.reject, hrne, hget, hne2]

theorem C5_unauthorized_witness :
    Broker.accept stAB "C" (some "req_1") = (stAB, Ack.err ErrMsg.notAuthorizedAccept, []) ∧
    Broker.reject stAB "C" (some "req_1") none =
      (stAB, Ack.err ErrMsg.notAuthorizedReject, []) :=
  have h := C5_unauthorized stAB stAB_reachable "req_1" reqAB "C" (by decide) (by decide)
  ⟨h.1, h.2 none⟩

/-- C6: whenever one of the five operations reports a failure in its
acknowledgement (`Ack.err`), the whole result is exactly the untouched input
state, that error acknowledgement, and no notifications; `listPending` never
fails.  (In the embedding every handler is a total function, mirroring the
try/catch that keeps exceptions from crossing the channel boundary.) -/
theorem C6_error_frame (st : BrokerState) (caller : String) :
    (∀ (toUserId message : Option String) (now : Nat) (s : String),
      (Broker.send st caller toUserId message now).2.1 = Ack.err s →
      Broker.send st caller toUserId message now = (st, Ack.err s, [])) ∧
    (∀ (ridOpt : Option String) (s : String),
      (Broker.accept st caller ridOpt).2.1 = Ack.err s →
      Broker.accept st caller ridOpt = (st, Ack.err s, [])) ∧
    (∀ (ridOpt reason : Option String) (s : String),
      (Broker.reject st caller ridOpt reason).2.1 = Ack.err s →
      Broker.reject st caller ridOpt reason = (st, Ack.err s, [])) ∧
    (∀ (ridOpt : Option String) (s : String),
      (Broker.cancel st caller ridOpt).2.1 = Ack.err s →
      Broker.cancel st caller ridOpt = (st, Ack.err s, [])) ∧
    (∀ s : String, (Broker.listPending st caller).2.1 ≠ Ack.err s) := by
  refine ⟨?_, ?_, ?_, ?_, ?_⟩
  · intro toUserId message now s h
    by_cases h1 : toUserId.getD "" = ""
    · simp [Broker.send, h1] at h ⊢
      exact h
    · by_cases h2 : toUserId.getD "" ∈ st.connectedUsers
      · simp [Broker.send, h1, h2] at h
      · simp [Broker.send, h1, h2] at h ⊢
        exact h
  · intro ridOpt s h
    by_cases h1 : ridOpt.getD "" = ""
    · simp [Broker.accept, h1] at h ⊢
      exact h
    · cases hm : mapGet st.friendRequests (ridOpt.getD "") with
      | none =>
        simp [Broker.accept, h1, hm] at h ⊢
        exact h
      | some request =>
        by_cases h3 : request.toUserId ≠ caller
        · simp [Broker.accept, h1, hm, h3] at h ⊢
          exact h
        · simp [Broker.accept, h1, hm, h3] at h
  · intro ridOpt reason s h
    by_cases h1 : ridOpt.getD "" = ""
    · simp [Broker.reject, h1] at h ⊢
      exact h
    · cases hm : mapGet st.friendRequests (ridOpt.getD "") with
      | none =>
        simp [Broker.reject, h1, hm] at h ⊢
        exact h
      | some request =>
        by_cases h3 : request.toUserId ≠ caller
        · simp [Broker.reject, h1, hm, h3] at h ⊢
          exact h
        · simp [Broker.reject, h1, hm, h3] at h
  · intro ridOpt s h
    by_cases h1 : ridOpt.getD "" = ""
    · simp [Broker.cancel, h1] at h ⊢
      exact h
    · cases hm : mapGet st.friendRequests (ridOpt.getD "") with
      | none =>
        simp [Broker.cancel, h1, hm] at h ⊢
        exact h
      | some request =>
        by_cases h3 : request.fromUserId ≠ caller
        · simp [Broker.cancel, h1, hm, h3] at h ⊢
          exact h
        · by_cases h4 : request.status ≠ Status.pending
          · simp [Broker.cancel, h1, hm, h3, h4] at h ⊢
            exact h
          · simp [Broker.cancel, h1, hm, h3, h4] at h
  · intro s h
    simp [Broker.listPending] at h

theorem C6_error_frame_witness :
    Broker.accept initState "A" none = (initState, Ack.err ErrMsg.requestIdRequired, []) :=
  (C6_error_frame initState "A").2.1 none ErrMsg.requestIdRequired rfl

/-- C2: for a cancel carrying an actual (non-falsy) request id: an unknown id
fails with NotFound; a caller other than the sender fails with NotAuthorized; a
non-pending request fails with InvalidState; and a pending request cancelled by
its sender is deleted, so the pending list of the recipient no longer contains
that id and a subsequent accept of that id fails with NotFound. -/
theorem C2_cancel (st : BrokerState) (hreach : Reachable st) (caller rid : String)
    (hrid : rid ≠ "") :
    (mapGet st.friendRequests rid = none →
      Broker.cancel st caller (some rid) = (st, Ack.err ErrMsg.notFound, [])) ∧
    (∀ r, mapGet st.friendRequests rid = some r → r.fromUserId ≠ caller →
      Broker.cancel st caller (some rid) = (st, Ack.err ErrMsg.notAuthorizedCancel, [])) ∧
    (∀ r, mapGet st.friendRequests rid = some r → r.fromUserId = caller →
      r.status ≠ Status.pending →
      Broker.cancel st caller (some rid) = (st, Ack.err ErrMsg.invalidState, [])) ∧
    (∀ r, mapGet st.friendRequests rid = some r → r.fromUserId = caller →
      r.status = Status.pending →
      (Broker.cancel st caller (some rid)).2.1 = Ack.okEmpty ∧
      mapGet (Broker.cancel st caller (some rid)).1.friendRequests rid = none ∧
      (∀ q ∈ Broker.pendingFor (Broker.cancel st caller (some rid)).1 r.toUserId,
        q.id ≠ rid) ∧
      (∀ c2 : String, Broker.accept (Broker.cancel st caller (some rid)).1 c2 (some rid) =
        ((Broker.cancel st caller (some rid)).1, Ack.err ErrMsg.notFound, []))) := by
  have hwf := reachable_wf hreach
  refine ⟨?_, ?_, ?_, ?_⟩
  · intro hm
    simp [Broker.cancel, hrid, hm]
  · intro r hm hfrom
    have hfrom2 : r.fromUserId ≠ caller := hfrom
    simp [Broker.cancel, hrid, hm, hfrom2]
  · intro r hm hfrom hstatus
    simp [Broker.cancel, hrid, hm, hfrom, hstatus]
  · intro r hm hfrom hstatus
    have hfr : (Broker.cancel st caller (some rid)).1.friendRequests =
        mapDelete st.friendRequests rid := by
      simp [Broker.cancel, hrid, hm, hfrom, hstatus]
    have hnone : mapGet (Broker.cancel st caller (some rid)).1.friendRequests rid = none := by
      rw [hfr]
      exact mapGet_delete_self _ _ hwf.nodup
    refine ⟨?_, hnone, ?_, ?_⟩
    · simp [Broker.cancel, hrid, hm, hfrom, hstatus]
    · intro q hq
      simp only [Broker.pendingFor] at hq
      rw [hfr] at hq
      rcases List.mem_filter.mp hq with ⟨hqmem, _⟩
      rcases List.mem_map.mp hqmem with ⟨p, hpmem, hpq⟩
      have hkey : p.1 ≠ rid := mem_mapDelete_key _ _ hwf.nodup p hpmem
      have hid : q.id = p.1 := by
        rw [← hpq]
        exact hwf.keyId p (mem_mapDelete _ _ _ hpmem)
      rw [hid]
      exact hkey
    · intro c2
      simp [Broker.accept, hrid, hnone]

theorem C2_cancel_witness :
    (mapGet stAB.friendRequests "req_1" = some reqAB ∧
      reqAB.fromUserId = "A" ∧ reqAB.status = Status.pending) ∧
    (Broker.cancel stAB "A" (some "req_1")).2.1 = Ack.okEmpty ∧
    mapGet (Broker.cancel stAB "A" (some "req_1")).1.friendRequests "req_1" = none ∧
    Broker.accept (Broker.cancel stAB "A" (some "req_1")).1 "B" (some "req_1") =
      ((Broker.cancel stAB "A" (some "req_1")).1, Ack.err ErrMsg.notFound, []) :=
  have h := (C2_cancel stAB stAB_reachable "A" "req_1" (by decide)).2.2.2 reqAB
    (by decide) (by decide) (by decide)
  ⟨⟨by decide, by decide, by decide⟩, h.1, h.2.1, h.2.2.2 "B"⟩

/-- C8: accepting a stored pending request as its recipient succeeds: the
acknowledgement carries the record with status set to accepted, the store holds
the updated record under the same id, and an accepted-notification is emitted
to the channel of the sender exactly when the sender is currently connected
(the operation succeeds either way). -/
theorem C8_accept_ok (st : BrokerState) (hreach : Reachable st) (rid : String)
    (r : FriendRequest) (hget : mapGet st.friendRequests rid = some r)
    (hpending : r.status = Status.pending) :
    (Broker.accept st r.toUserId (some rid)).2.1 =
      Ack.okRequest { r with status := Status.accepted } ∧
    mapGet (Broker.accept st r.toUserId (some rid)).1.friendRequests rid =
      some { r with status := Status.accepted } ∧
    (r.fromUserId ∈ st.connectedUsers →
      (Broker.accept st r.toUserId (some rid)).2.2 =
        [(r.fromUserId, NotePayload.accepted { r with status := Status.accepted })]) ∧
    (r.fromUserId ∉ st.connectedUsers → (Broker.accept st r.toUserId (some rid)).2.2 = []) := by
  have hwf := reachable_wf hreach
  have hmem := mapGet_mem _ _ _ hget
  rcases hwf.fresh _ hmem with ⟨n, hlt, hn⟩
  have hrne : rid ≠ "" := by
    rw [show rid = reqId n from hn]
    exact reqId_ne_empty n
  refine ⟨?_, ?_, ?_, ?_⟩
  · simp [Broker.accept, hrne, hget]
  · have hfr : (Broker.accept st r.toUserId (some rid)).1.friendRequests =
        mapSet st.friendRequests rid { r with status := Status.accepted } := by
      simp [Broker.accept, hrne, hget]
    rw [hfr]
    exact mapGet_set_self _ _ _
  · intro hc
    simp [Broker.accept, hrne, hget, hc]
  · intro hc
    simp [Broker.accept, hrne, hget, hc]

theorem C8_accept_ok_witness :
    (Broker.accept stAB reqAB.toUserId (some "req_1")).2.1 =
      Ack.okRequest { reqAB with status := Status.accepted } ∧
    mapGet (Broker.accept stAB reqAB.toUserId (some "req_1")).1.friendRequests "req_1" =
      some { reqAB with status := Status.accepted } ∧
    (Broker.accept stAB reqAB.toUserId (some "req_1")).2.2 =
      [(reqAB.fromUserId, NotePayload.accepted { reqAB with status := Status.accepted })] :=
  have h := C8_accept_ok stAB stAB_reachable "req_1" reqAB (by decide) (by decide)
  ⟨h.1, h.2.1, h.2.2.1 (by decide)⟩

/-- C9: accept and reject mutate only the `status` field of a stored record:
whatever record is found under a key afterwards agrees with the record stored
there before on `id`, `fromUserId`, `toUserId`, `timestamp` (the name the code
uses for createdAt) and `message`. -/
theorem C9_immutable_fields (st : BrokerState) (caller : String) (ridOpt : Option String)
    (reason : Option String) (k : String) (q : FriendRequest)
    (hq : mapGet st.friendRequests k = some q) :
    (∀ q2, mapGet (Broker.accept st caller ridOpt).1.friendRequests k = some q2 →
      q2.id = q.id ∧ q2.fromUserId = q.fromUserId ∧ q2.toUserId = q.toUserId ∧
      q2.timestamp = q.timestamp ∧ q2.message = q.message) ∧
    (∀ q2, mapGet (Broker.reject st caller ridOpt reason).1.friendRequests k = some q2 →
      q2.id = q.id ∧ q2.fromUserId = q.fromUserId ∧ q2.toUserId = q.toUserId ∧
      q2.timestamp = q.timestamp ∧ q2.message = q.message) := by
  constructor
  · intro q2 h2
    by_cases h1 : ridOpt.getD "" = ""
    · rw [show (Broker.accept st caller ridOpt).1.friendRequests = st.friendRequests by
        simp [Broker.accept, h1]] at h2
      rw [hq] at h2
      rcases Option.some.injEq .. ▸ h2 with rfl
      exact ⟨rfl, rfl, rfl, rfl, rfl⟩
    · cases hm : mapGet st.friendRequests (ridOpt.getD "") with
      | none =>
        rw [show (Broker.accept st caller ridOpt).1.friendRequests = st.friendRequests by
          simp [Broker.accept, h1, hm]] at h2
        rw [hq] at h2
        rcases Option.some.injEq .. ▸ h2 with rfl
        exact ⟨rfl, rfl, rfl, rfl, rfl⟩
      | some request =>
        by_cases h3 : request.toUserId ≠ caller
        · rw [show (Broker.accept st caller ridOpt).1.friendRequests = st.friendRequests by
            simp [Broker.accept, h1, hm, h3]] at h2
          rw [hq] at h2
          rcases Option.some.injEq .. ▸ h2 with rfl
          exact ⟨rfl, rfl, rfl, rfl, rfl⟩
        · rw [show (Broker.accept st caller ridOpt).1.friendRequests =
              mapSet st.friendRequests (ridOpt.getD "")
                { request with status := Status.accepted } by
            simp [Broker.accept, h1, hm, h3]] at h2
          by_cases hk : k = ridOpt.getD ""
          · rw [hk] at h2 hq
            rw [hq] at hm
            rcases Option.some.injEq .. ▸ hm with rfl
            rw [mapGet_set_self] at h2
            rcases Option.some.injEq .. ▸ h2 with rfl
            exact ⟨rfl, rfl, rfl, rfl, rfl⟩
          · rw [mapGet_set_ne _ _ _ _ hk] at h2
            rw [hq] at h2
            rcases Option.some.injEq .. ▸ h2 with rfl
            exact ⟨rfl, rfl, rfl, rfl, rfl⟩
  · intro q2 h2
    by_cases h1 : ridOpt.getD "" = ""
    · rw [show (Broker.reject st caller ridOpt reason).1.friendRequests = st.friendRequests by
        simp [Broker.reject, h1]] at h2
      rw [hq] at h2
      rcases Option.some.injEq .. ▸ h2 with rfl
      exact ⟨rfl, rfl, rfl, rfl, rfl⟩
    · cases hm : mapGet st.friendRequests (ridOpt.getD "") with
      | none =>
        rw [show (Broker.reject st caller ridOpt reason).1.friendRequests = st.friendRequests by
          simp [Broker.reject, h1, hm]] at h2
        rw [hq] at h2
        rcases Option.some.injEq .. ▸ h2 with rfl
        exact ⟨rfl, rfl, rfl, rfl, rfl⟩
      | some request =>
        by_cases h3 : request.toUserId ≠ caller
        · rw [show (Broker.reject st caller ridOpt reason).1.friendRequests =
              st.friendRequests by
            simp [Broker.reject, h1, hm, h3]] at h2
          rw [hq] at h2
          rcases Option.some.injEq .. ▸ h2 with rfl
          exact ⟨rfl, rfl, rfl, rfl, rfl⟩
        · rw [show (Broker.reject st caller ridOpt reason).1.friendRequests =
              mapSet st.friendRequests (ridOpt.getD "")
                { request with status := Status.rejected } by
            simp [Broker.reject, h1, hm, h3]] at h2
          by_cases hk : k = ridOpt.getD ""
          · rw [hk] at h2 hq
            rw [hq] at hm
            rcases Option.some.injEq .. ▸ hm with rfl
            rw [mapGet_set_self] at h2
            rcases Option.some.injEq .. ▸ h2 with rfl
            exact ⟨rfl, rfl, rfl, rfl, rfl⟩
          · rw [mapGet_set_ne _ _ _ _ hk] at h2
            rw [hq] at h2
            rcases Option.some.injEq .. ▸ h2 with rfl
            exact ⟨rfl, rfl, rfl, rfl, rfl⟩

theorem C9_immutable_fields_witness :
    ({ reqAB with status := Status.accepted } : FriendRequest).id = reqAB.id ∧
    ({ reqAB with status := Status.accepted } : FriendRequest).fromUserId = reqAB.fromUserId ∧
    ({ reqAB with status := Status.accepted } : FriendRequest).toUserId = reqAB.toUserId ∧
    ({ reqAB with status := Status.accepted } : FriendRequest).timestamp = reqAB.timestamp ∧
    ({ reqAB with status := Status.accepted } : FriendRequest).message = reqAB.message :=
  (C9_immutable_fields stAB "B" (some "req_1") none "req_1" reqAB (by decide)).1
    { reqAB with status := Status.accepted } (by decide)

/-- C1 as stated is false on the code: accept and reject do not check the
current status, so a request that is already rejected is moved to accepted by a
further accept from the recipient.  Concretely: A connects, B connects, A sends
to B (`req_1`), B rejects it, and then B accepts it — the stored status changes
from rejected to accepted. -/
theorem C1_counterexample :
    ¬ (∀ (st : BrokerState), Reachable st → ∀ (e : Event) (i : String) (r r2 : FriendRequest),
        mapGet st.friendRequests i = some r → r.status ≠ Status.pending →
        mapGet (step st e).friendRequests i = some r2 → r2.status = r.status) := by
  intro hclaim
  have hreach : Reachable (run initState
      [Event.connect "A" "t", Event.connect "B" "t",
       Event.send "A" (some "B") (some "hi") 5,
       Event.reject "B" (some "req_1") none]) :=
    Reachable.step (Reachable.step (Reachable.step (Reachable.step Reachable.init
      (Event.connect "A" "t")) (Event.connect "B" "t"))
      (Event.send "A" (some "B") (some "hi") 5)) (Event.reject "B" (some "req_1") none)
  have hres := hclaim _ hreach (Event.accept "B" (some "req_1")) "req_1"
    { id := "req_1", fromUserId := "A", toUserId := "B", status := Status.rejected,
      timestamp := 5, message := some "hi" }
    { id := "req_1", fromUserId := "A", toUserId := "B", status := Status.accepted,
      timestamp := 5, message := some "hi" }
    (by decide) (by decide) (by decide)
  exact absurd hres (by decide)

/-- C1 amended: in a reachable state, a stored request is changed by a step
only in these ways: it stays exactly as it is; its status is set to accepted by
an accept from its recipient; its status is set to rejected by a reject from
its recipient (both regardless of the current status, since accept/reject do
not guard on pending); or, if it is pending, it is removed by a cancel from its
sender.  In particular only accept/reject/cancel by the right party ever touch
it, status is the only field that changes, and removal happens only for
pending requests via cancel. -/
theorem C1_amended (st : BrokerState) (hreach : Reachable st) (e : Event) (i : String)
    (r : FriendRequest) (hget : mapGet st.friendRequests i = some r) :
    mapGet (step st e).friendRequests i = some r
    ∨ (mapGet (step st e).friendRequests i = some { r with status := Status.accepted } ∧
        e = Event.accept r.toUserId (some i))
    ∨ (mapGet (step st e).friendRequests i = some { r with status := Status.rejected } ∧
        ∃ reason, e = Event.reject r.toUserId (some i) reason)
    ∨ (mapGet (step st e).friendRequests i = none ∧ r.status = Status.pending ∧
        e = Event.cancel r.fromUserId (some i)) := by
  have hwf := reachable_wf hreach
  cases e with
  | connect u t =>
    left
    simp only [step, stepOut]
    split <;> exact hget
  | disconnect u => exact Or.inl hget
  | listPending c => exact Or.inl hget
  | send c tgtOpt msg now =>
    left
    by_cases h1 : tgtOpt.getD "" = ""
    · rw [show (step st (Event.send c tgtOpt msg now)).friendRequests = st.friendRequests by
        simp [step, stepOut, Broker.send, h1]]
      exact hget
    · by_cases h2 : tgtOpt.getD "" ∈ st.connectedUsers
      · have hfr : (step st (Event.send c tgtOpt msg now)).friendRequests =
            mapSet st.friendRequests (reqId st.requestCounter)
              { id := reqId st.requestCounter, fromUserId := c,
                toUserId := tgtOpt.getD "", status := Status.pending,
                timestamp := now, message := msg } := by
          simp [step, stepOut, Broker.send, h1, h2]
        have hik : i ≠ reqId st.requestCounter := by
          intro hik
          rcases hwf.fresh _ (mapGet_mem _ _ _ hget) with ⟨n, hlt, hn⟩
          rw [hik] at hn
          exact absurd (reqId_inj hn.symm) (by omega)
        rw [hfr, mapGet_set_ne _ _ _ _ hik]
        exact hget
      · rw [show (step st (Event.send c tgtOpt msg now)).friendRequests = st.friendRequests by
          simp [step, stepOut, Broker.send, h1, h2]]
        exact hget
  | accept c ridOpt =>
    by_cases h1 : ridOpt.getD "" = ""
    · left
      rw [show (step st (Event.accept c ridOpt)).friendRequests = st.friendRequests by
        simp [step, stepOut, Broker.accept, h1]]
      exact hget
    · cases hm : mapGet st.friendRequests (ridOpt.getD "") with
      | none =>
        left
        rw [show (step st (Event.accept c ridOpt)).friendRequests = st.friendRequests by
          simp [step, stepOut, Broker.accept, h1, hm]]
        exact hget
      | some request =>
        by_cases h3 : request.toUserId ≠ c
        · left
          rw [show (step st (Event.accept c ridOpt)).friendRequests = st.friendRequests by
            simp [step, stepOut, Broker.accept, h1, hm, h3]]
          exact hget
        · have hfr : (step st (Event.accept c ridOpt)).friendRequests =
              mapSet st.friendRequests (ridOpt.getD "")
                { request with status := Status.accepted } := by
            simp [step, stepOut, Broker.accept, h1, hm, h3]
          by_cases hik : i = ridOpt.getD ""
          · right; left
            rw [hik] at hget
            rw [hget] at hm
            rcases Option.some.injEq .. ▸ hm with rfl
            constructor
            · rw [hfr, hik]
              exact mapGet_set_self _ _ _
            · rw [show r.toUserId = c from not_ne_iff.mp h3, getD_empty_ne h1, hik]
          · left
            rw [hfr, mapGet_set_ne _ _ _ _ hik]
            exact hget
  | reject c ridOpt reason =>
    by_cases h1 : ridOpt.getD "" = ""
    · left
      rw [show (step st (Event.reject c ridOpt reason)).friendRequests = st.friendRequests by
        simp [step, stepOut, Broker.reject, h1]]
      exact hget
    · cases hm : mapGet st.friendRequests (ridOpt.getD "") with
      | none =>
        left
        rw [show (step st (Event.reject c ridOpt reason)).friendRequests = st.friendRequests by
          simp [step, stepOut, Broker.reject, h1, hm]]
        exact hget
      | some request =>
        by_cases h3 : request.toUserId ≠ c
        · left
          rw [show (step st (Event.reject c ridOpt reason)).friendRequests =
              st.friendRequests by
            simp [step, stepOut, Broker.reject, h1, hm, h3]]
          exact hget
        · have hfr : (step st (Event.reject c ridOpt reason)).friendRequests =
              mapSet st.friendRequests (ridOpt.getD "")
                { request with status := Status.rejected } := by
            simp [step, stepOut, Broker.reject, h1, hm, h3]
          by_cases hik : i = ridOpt.getD ""
          · right; right; left
            rw [hik] at hget
            rw [hget] at hm
            rcases Option.some.injEq .. ▸ hm with rfl
            constructor
            · rw [hfr, hik]
              exact mapGet_set_self _ _ _
            · exact ⟨reason, by rw [show r.toUserId = c from not_ne_iff.mp h3,
                getD_empty_ne h1, hik]⟩
          · left
            rw [hfr, mapGet_set_ne _ _ _ _ hik]
            exact hget
  | cancel c ridOpt =>
    by_cases h1 : ridOpt.getD "" = ""
    · left
      rw [show (step st (Event.cancel c ridOpt)).friendRequests = st.friendRequests by
        simp [step, stepOut, Broker.cancel, h1]]
      exact hget
    · cases hm : mapGet st.friendRequests (ridOpt.getD "") with
      | none =>
        left
        rw [show (step st (Event.cancel c ridOpt)).friendRequests = st.friendRequests by
          simp [step, stepOut, Broker.cancel, h1, hm]]
        exact hget
      | some request =>
        by_cases h3 : request.fromUserId ≠ c
        · left
          rw [show (step st (Event.cancel c ridOpt)).friendRequests = st.friendRequests by
            simp [step, stepOut, Broker.cancel, h1, hm, h3]]
          exact hget
        · by_cases h4 : request.status ≠ Status.pending
          · left
            rw [show (step st (Event.cancel c ridOpt)).friendRequests = st.friendRequests by
              simp [step, stepOut, Broker.cancel, h1, hm, h3, h4]]
            exact hget
          · have hfr : (step st (Event.cancel c ridOpt)).friendRequests =
                mapDelete st.friendRequests (ridOpt.getD "") := by
              simp [step, stepOut, Broker.cancel, h1, hm, h3, h4]
            by_cases hik : i = ridOpt.getD ""
            · right; right; right
              rw [hik] at hget
              rw [hget] at hm
              rcases Option.some.injEq .. ▸ hm with rfl
              refine ⟨?_, not_ne_iff.mp h4, ?_⟩
              · rw [hfr, hik]
                exact mapGet_delete_self _ _ hwf.nodup
              · rw [show r.fromUserId = c from not_ne_iff.mp h3, getD_empty_ne h1, hik]
            · left
              rw [hfr, mapGet_delete_ne _ _ _ (by exact hik)]
              exact hget

theorem C1_amended_witness :
    mapGet (step stAB (Event.accept "B" (some "req_1"))).friendRequests "req_1" = some reqAB
    ∨ (mapGet (step stAB (Event.accept "B" (some "req_1"))).friendRequests "req_1" =
        some { reqAB with status := Status.accepted } ∧
        Event.accept "B" (some "req_1") = Event.accept reqAB.toUserId (some "req_1"))
    ∨ (mapGet (step stAB (Event.accept "B" (some "req_1"))).friendRequests "req_1" =
        some { reqAB with status := Status.rejected } ∧
        ∃ reason, Event.accept "B" (some "req_1") =
          Event.reject reqAB.toUserId (some "req_1") reason)
    ∨ (mapGet (step stAB (Event.accept "B" (some "req_1"))).friendRequests "req_1" = none ∧
        reqAB.status = Status.pending ∧
        Event.accept "B" (some "req_1") = Event.cancel reqAB.fromUserId (some "req_1")) :=
  C1_amended stAB stAB_reachable (Event.accept "B" (some "req_1")) "req_1" reqAB (by decide)

/-- C7: two distinct successful send operations in one process lifetime create
requests with distinct ids: the id embeds the value of the process-local
`requestCounter`, which a successful send increments and no operation ever
decreases. -/
theorem C7_unique_ids (pre mid : List Event) (c1 c2 : String)
    (t1 t2 m1 m2 : Option String) (n1 n2 : Nat) (r1 r2 : FriendRequest)
    (h1 : (stepOut (run initState pre) (Event.send c1 t1 m1 n1)).2.1 = Ack.okRequest r1)
    (h2 : (stepOut (run initState (pre ++ Event.send c1 t1 m1 n1 :: mid))
      (Event.send c2 t2 m2 n2)).2.1 = Ack.okRequest r2) :
    r1.id ≠ r2.id := by
  have hs1 := send_ok (run initState pre) c1 t1 m1 n1 r1 h1
  have hs2 := send_ok (run initState (pre ++ Event.send c1 t1 m1 n1 :: mid))
    c2 t2 m2 n2 r2 h2
  have hrun : run initState (pre ++ Event.send c1 t1 m1 n1 :: mid) =
      run (step (run initState pre) (Event.send c1 t1 m1 n1)) mid := by
    rw [run_append]
    rfl
  have hle := counter_le_run (step (run initState pre) (Event.send c1 t1 m1 n1)) mid
  have hstep : (step (run initState pre) (Event.send c1 t1 m1 n1)).requestCounter =
      (run initState pre).requestCounter + 1 := hs1.2
  rw [hstep] at hle
  rw [hrun] at hs2
  intro heq
  rw [hs1.1, hs2.1] at heq
  have := reqId_inj heq
  omega

theorem C7_unique_ids_witness :
    ({ id := reqId 1, fromUserId := "A", toUserId := "B", status := Status.pending,
       timestamp := 0, message := none } : FriendRequest).id ≠
    ({ id := reqId 2, fromUserId := "A", toUserId := "B", status := Status.pending,
       timestamp := 0, message := none } : FriendRequest).id :=
  C7_unique_ids [Event.connect "A" "t", Event.connect "B" "t"] [] "A" "A"
    (some "B") (some "B") none none 0 0
    { id := reqId 1, fromUserId := "A", toUserId := "B", status := Status.pending,
      timestamp := 0, message := none }
    { id := reqId 2, fromUserId := "A", toUserId := "B", status := Status.pending,
      timestamp := 0, message := none }
    (by decide) (by decide)
